import Mathlib

/-!
# Verification of the Excel image/QA extraction script

Shallow embedding of the core of the repository (function_app.py):
column codec, relationship resolution chain, image registry, row melter
and record assembler, with theorems checking the specification claims.
-/

namespace ExcelRag

/-! ## Column Codec (function_app.py, colnum_to_excel_col) -/

/-- One pass of the colnum_to_excel_col loop: take the current value
mod 26 as a letter prepended to the result, then divide by 26 and
subtract one; the Python loop stops when the value becomes negative,
which for nonnegative input happens exactly when the value is below 26.
The fuel argument only bounds the iteration count so that the function
is structurally recursive; the value strictly decreases at each pass, so
any fuel above the start value is enough and never runs out. -/
def colnumAux : Nat → Nat → String
  | 0, _ => ""
  | fuel + 1, n =>
    if n < 26 then String.singleton (Char.ofNat (n % 26 + 65))
    else colnumAux fuel (n / 26 - 1) ++ String.singleton (Char.ofNat (n % 26 + 65))

/-- Embedding of colnum_to_excel_col on nonnegative input. -/
def colnum_to_excel_col (n : Nat) : String :=
  colnumAux (n + 1) n

/-- Reference bijective base-26 decoding of a column-letter string back to
a zero-based index (each letter contributes its alphabet position 1..26). -/
def decodeCol (s : String) : Int :=
  s.data.foldl (fun a c => 26 * a + ((c.toNat : Int) - 64)) 0 - 1

/-! ## Decimal digits of Nat.repr

The f-strings of the source interpolate the row number with str(row + 1),
which the embedding renders with Nat.repr. The lemmas below characterise
the characters of that decimal representation. -/

/-- Structural description of the digit list built by Nat.toDigitsCore. -/
def decDigits (n : Nat) : List Char :=
  if _h : n < 10 then [Nat.digitChar n]
  else decDigits (n / 10) ++ [Nat.digitChar (n % 10)]
termination_by n
decreasing_by
  exact Nat.div_lt_self (by omega) (by omega)

/-- Folding decimal digits back to the number they denote. -/
def valOfDigits (l : List Char) : Nat :=
  l.foldl (fun a c => 10 * a + (c.toNat - 48)) 0

/-! ## Cell labels and save names (function_app.py, cell_name and save_name) -/

/-- Embedding of the f-string building cell_name: column letters followed
by the one-based row number. -/
def cellName (col row : Nat) : String :=
  colnum_to_excel_col col ++ Nat.repr (row + 1)

/-- Embedding of the f-string building save_name:
sheet name, underscore, cell label, underscore, original media file name. -/
def saveName (sheetName : String) (col row : Nat) (fileName : String) : String :=
  sheetName ++ "_" ++ cellName col row ++ "_" ++ fileName

/-! ## Tabular data model (pandas DataFrame cells) -/

/-- A spreadsheet cell as read by pandas: missing (NaN), text, or a
numeric value. Floating point numbers are idealised as rationals written
as a numerator and a positive denominator (denominator one for integers). -/
inductive Cell where
  | na : Cell
  | str : String → Cell
  | num : Int → Nat → Cell

deriving DecidableEq

deriving instance DecidableEq for Except

/-- One data row of a sheet, with the five fixed columns of the source
(分類, 項目, No., 質問, 回答). -/
structure Row where
  bunrui : Cell
  koumoku : Cell
  no : Cell
  shitsumon : Cell
  kaitou : Cell

deriving DecidableEq

/-- A row of the concatenated table, carrying the sheet-name column that
the script attaches before concatenation. -/
structure SRow where
  bunrui : Cell
  koumoku : Cell
  no : Cell
  shitsumon : Cell
  kaitou : Cell
  sheet : String

deriving DecidableEq

def dSRow : SRow :=
  ⟨Cell.na, Cell.na, Cell.na, Cell.na, Cell.na, ""⟩

/-- Embedding of the df_all construction: per-sheet tables receive the
sheet-name column and are concatenated in order with a fresh zero-based
index (pd.concat with ignore_index); the index is the list position. -/
def dfAll : List (String × List Row) → List SRow
  | [] => []
  | (s, rows) :: rest =>
    rows.map (fun r => ⟨r.bunrui, r.koumoku, r.no, r.shitsumon, r.kaitou, s⟩)
      ++ dfAll rest

/-! ## Row Melter (function_app.py, melt_merged_rows) -/

/-- Forward fill of one column: a missing cell takes the most recent
non-missing value seen above it (pandas ffill). -/
def ffillCol : Cell → List Cell → List Cell
  | _, [] => []
  | last, c :: cs =>
    let v := if c = Cell.na then last else c
    v :: ffillCol v cs

/-- Forward fill of the three identifying columns 分類, 項目, No. over the
whole concatenated table, the other columns unchanged. -/
def ffill3 (rows : List SRow) : List SRow :=
  let b := ffillCol Cell.na (rows.map (fun r => r.bunrui))
  let k := ffillCol Cell.na (rows.map (fun r => r.koumoku))
  let n := ffillCol Cell.na (rows.map (fun r => r.no))
  (List.range rows.length).map (fun i =>
    { rows.getD i dSRow with
        bunrui := b.getD i Cell.na
        koumoku := k.getD i Cell.na
        no := n.getD i Cell.na })

/-- Running sum of a boolean list (pandas cumsum), including the current
entry. -/
def cumsumB : Nat → List Bool → List Nat
  | _, [] => []
  | acc, b :: bs =>
    let acc2 := if b then acc + 1 else acc
    acc2 :: cumsumB acc2 bs

/-- Embedding of the grp column: cumulative count of rows whose pre-fill
分類 cell is non-missing. -/
def grpList (rows : List SRow) : List Nat :=
  cumsumB 0 (rows.map (fun r => decide (r.bunrui ≠ Cell.na)))

/-- A filled row together with its group id and its original_row value
(index + 2). -/
structure Tagged where
  row : SRow
  grp : Nat
  orig : Nat

deriving DecidableEq

/-- The table handed to the groupby: filled rows, group ids and the
original_row column, aligned by the concatenated index. -/
def meltInput (rows : List SRow) : List Tagged :=
  let filled := ffill3 rows
  let grps := grpList rows
  (List.range rows.length).map (fun i =>
    ⟨filled.getD i dSRow, grps.getD i 0, i + 2⟩)

/-- Group keys in order of first appearance (pandas groupby, sort=False). -/
def firstKeys : List Nat → List Nat
  | [] => []
  | k :: ks => k :: (firstKeys ks).filter (fun x => decide (x ≠ k))

/-- Python str of a newline join over the non-missing cells of a column
inside one group. -/
def joinNL : List String → String
  | [] => ""
  | s :: rest => rest.foldl (fun a t => a ++ "\n" ++ t) s

/-- Idealised Python str of a cell, none for NaN (Series.dropna followed
by astype(str)); the exact text of a numeric cell is never relied on. -/
def pyStr : Cell → Option String
  | Cell.na => none
  | Cell.str s => some s
  | Cell.num n d =>
    some ((if n < 0 then "-" ++ Nat.repr n.natAbs else Nat.repr n.natAbs)
      ++ "/" ++ Nat.repr d)

/-- pandas GroupBy.first: the first non-missing value of the column within
the group, NaN when every value is missing. -/
def firstCell (l : List Cell) : Cell :=
  (l.find? (fun c => decide (c ≠ Cell.na))).getD Cell.na

/-- An aggregated group before the final integer coercion of No. -/
structure PreGroup where
  sheet : String
  bunrui : Cell
  koumoku : Cell
  no : Cell
  shitsumon : String
  kaitou : String
  origRows : List Nat

deriving DecidableEq

/-- Embedding of the agg dictionary applied to one group. -/
def aggGroup (ts : List Tagged) : PreGroup :=
  { sheet := ((ts.map (fun t => t.row.sheet)).head?).getD ""
  , bunrui := firstCell (ts.map (fun t => t.row.bunrui))
  , koumoku := firstCell (ts.map (fun t => t.row.koumoku))
  , no := firstCell (ts.map (fun t => t.row.no))
  , shitsumon := joinNL ((ts.map (fun t => t.row.shitsumon)).filterMap pyStr)
  , kaitou := joinNL ((ts.map (fun t => t.row.kaitou)).filterMap pyStr)
  , origRows := ts.map (fun t => t.orig) }

/-- The groupby-aggregate: one PreGroup per group key, keys in first
appearance order, each aggregating the rows carrying that key. -/
def preGroups (rows : List SRow) : List PreGroup :=
  (firstKeys (grpList rows)).map (fun k =>
    aggGroup ((meltInput rows).filter (fun t => decide (t.grp = k))))

/-- Truncation toward zero, the effect of the astype int cast on a float. -/
def ratTrunc (n : Int) (d : Nat) : Int :=
  if n < 0 then -((((-n).toNat / d : Nat) : Int))
  else ((n.toNat / d : Nat) : Int)

/-- A nonempty run of decimal digit characters read as a number. -/
def digitsVal : List Char → Option Nat
  | [] => none
  | l =>
    l.foldl
      (fun acc c =>
        match acc with
        | none => none
        | some v =>
          if 48 ≤ c.toNat ∧ c.toNat ≤ 57 then some (10 * v + (c.toNat - 48)) else none)
      (some 0)

/-- Embedding of the Python int() parse of a string: an optional sign
followed by decimal digits; anything else raises ValueError. -/
def pyIntParse (s : String) : Option Int :=
  match s.data with
  | '-' :: rest => (digitsVal rest).map (fun v => -(v : Int))
  | '+' :: rest => (digitsVal rest).map (fun v => (v : Int))
  | l => (digitsVal l).map (fun v => (v : Int))

/-- Embedding of the astype({No.: int}) cast on one cell: NaN and
non-integer text raise, numbers are truncated toward zero. -/
def toIntCell : Cell → Except String Int
  | Cell.na => Except.error "Cannot convert non-finite values (NA or inf) to integer"
  | Cell.num n d => Except.ok (ratTrunc n d)
  | Cell.str s =>
    match pyIntParse s with
    | some k => Except.ok k
    | none => Except.error ("invalid literal for int with base 10: " ++ s)

/-- A finished merge group: aggregated values with the coerced integer No. -/
structure Group where
  sheet : String
  bunrui : Cell
  koumoku : Cell
  no : Int
  shitsumon : String
  kaitou : String
  origRows : List Nat

deriving DecidableEq

def coerceGroup (g : PreGroup) : Except String Group := do
  let n ← toIntCell g.no
  pure { sheet := g.sheet, bunrui := g.bunrui, koumoku := g.koumoku, no := n,
         shitsumon := g.shitsumon, kaitou := g.kaitou, origRows := g.origRows }

/-- Sequential effectful map over Except: the first raised error aborts
the whole traversal, as the astype cast does for the whole column. -/
def mapExcept {α β ε : Type} (f : α → Except ε β) : List α → Except ε (List β)
  | [] => Except.ok []
  | a :: l => do
    let b ← f a
    let bs ← mapExcept f l
    pure (b :: bs)

/-- Embedding of melt_merged_rows: forward fill, group, aggregate, then
coerce every group sequence number to an integer (an exception anywhere
aborts the whole call). -/
def melt_merged_rows (rows : List SRow) : Except String (List Group) :=
  mapExcept coerceGroup (preGroups rows)

/-! ## Relationship Resolver, Anchor data and Image Registry -/

/-- One parsed twoCellAnchor: top-left cell coordinates and the embed
relationship id of its blip, when the anchor has an image reference. -/
structure Anchor where
  col : Nat
  row : Nat
  embed : Option String

deriving DecidableEq

/-- One drawing part with its parsed anchors. -/
structure Drawing where
  name : String
  anchors : List Anchor

deriving DecidableEq

/-- The relationship tables and parts of one package, as built by the
script from workbook.xml, workbook.xml.rels, the worksheet rels files and
the drawing rels files. -/
structure Pkg where
  sheetIdToName : List (String × String)
  rIdToSheetFile : List (String × String)
  sheetToDrawing : List (String × String)
  drawingRIdImage : List (String × List (String × String))
  namelist : List String
  drawings : List Drawing

/-- Embedding of the sheet-name resolution for one drawing: the first
worksheet relationship whose sheet file maps to this drawing gives the
relationship id, which is looked up in the workbook sheet table; a bracket
lookup failure there is a raised KeyError, and a missing or empty name
skips the drawing. -/
def sheetNameFor (p : Pkg) (drawingName : String) : Except String (Option String) :=
  match p.rIdToSheetFile.find?
      (fun pr => p.sheetToDrawing.lookup pr.2 == some drawingName) with
  | none => Except.ok none
  | some (rId, _) =>
    match p.sheetIdToName.lookup rId with
    | none => Except.error ("KeyError: " ++ rId)
    | some n => Except.ok (if n = "" then none else some n)

/-- One image saved by the extraction loop. -/
structure SavedImage where
  sheet : String
  col : Nat
  row : Nat
  file : String

deriving DecidableEq

def savedName (i : SavedImage) : String := saveName i.sheet i.col i.row i.file

def savedPath (i : SavedImage) : String := "json_output/image/" ++ savedName i

/-- rId to image file table of one drawing, empty when the drawing has no
rels entry (dict.get with default). -/
def rIdImgOf (p : Pkg) (drawingName : String) : List (String × String) :=
  (p.drawingRIdImage.lookup drawingName).getD []

/-- Embedding of the per-anchor body of the extraction loop: skip anchors
without a blip, skip embed ids with no image relationship, skip empty file
names, skip media missing from the archive; otherwise save. -/
def anchorSave (sheetName : String) (rIdImg : List (String × String))
    (namelist : List String) (a : Anchor) : Option SavedImage :=
  match a.embed with
  | none => none
  | some rId =>
    match rIdImg.lookup rId with
    | none => none
    | some file =>
      if file = "" then none
      else if ("xl/media/" ++ file) ∈ namelist then
        some ⟨sheetName, a.col, a.row, file⟩
      else none

/-- Images produced for one drawing: none when the drawing resolves to no
sheet name, else the anchor scan in order. -/
def drawingImages (p : Pkg) (d : Drawing) : Except String (List SavedImage) := do
  match ← sheetNameFor p d.name with
  | none => pure []
  | some sname =>
    pure (d.anchors.filterMap (anchorSave sname (rIdImgOf p d.name) p.namelist))

/-- The (sheet, row) indexed image path registry, in insertion order. -/
abbrev ImageMap := List ((String × Nat) × List String)

/-- dict.setdefault(key, []).append(path). -/
def mapAppend (m : ImageMap) (k : String × Nat) (path : String) : ImageMap :=
  if m.any (fun e => decide (e.1 = k)) then
    m.map (fun e => if e.1 = k then (e.1, e.2 ++ [path]) else e)
  else m ++ [(k, [path])]

/-- Embedding of the whole extraction loop: every drawing in namelist
order, every anchor in document order, appending each saved path under the
(sheet name, one-based anchor row) key. -/
def buildImageMap (p : Pkg) : Except String ImageMap :=
  p.drawings.foldlM (fun m d => do
    let imgs ← drawingImages p d
    pure (imgs.foldl (fun m2 i => mapAppend m2 (i.sheet, i.row + 1) (savedPath i)) m)) []

/-! ## Record Assembler (the JSON output loop) -/

/-- A terminal output record (original_row is popped before serialising). -/
structure QARecord where
  sheet : String
  bunrui : Cell
  koumoku : Cell
  no : Int
  shitsumon : String
  kaitou : String
  images : List String

deriving DecidableEq

/-- Embedding of the image join of one record: walk the registry in
insertion order and collect the paths of every entry whose sheet matches
and whose row lies in the group's original rows. -/
def recordImages (m : ImageMap) (sheet : String) (origRows : List Nat) : List String :=
  m.foldl (fun acc e =>
    if e.1.1 = sheet ∧ e.1.2 ∈ origRows then acc ++ e.2 else acc) []

def buildRecords (m : ImageMap) (gs : List Group) : List QARecord :=
  gs.map (fun g =>
    { sheet := g.sheet, bunrui := g.bunrui, koumoku := g.koumoku,
      no := g.no, shitsumon := g.shitsumon, kaitou := g.kaitou,
      images := recordImages m g.sheet g.origRows })

/-- The full run on one package and its tabular content: extract images,
melt the concatenated table, then assemble the records. -/
def runRecords (p : Pkg) (wb : List (String × List Row)) :
    Except String (List QARecord) := do
  let m ← buildImageMap p
  let gs ← melt_merged_rows (dfAll wb)
  pure (buildRecords m gs)

/-- Modelled from the spec: the original row numbering the specification
describes, one-based on-sheet position offset by the single header row,
restarting at every sheet. Used only to compare against the numbering the
code computes. -/
def specOriginalRows : List (String × List Row) → List Nat
  | [] => []
  | (_, rows) :: rest =>
    (List.range rows.length).map (fun i => i + 2) ++ specOriginalRows rest

/-- The original row numbers the code actually assigns to the melter
input, in table order. -/
def codeOriginalRows (wb : List (String × List Row)) : List Nat :=
  (meltInput (dfAll wb)).map (fun t => t.orig)

/-! ## Concrete inputs used by the claim checks -/

/-- A single sheet of three consecutive rows: only the first carries a
classification value, the question column has text on rows one and two
only. -/
def threeRows (shNm c itm s1 s2 : String) (k : Int) : List (String × List Row) :=
  [(shNm,
    [ ⟨Cell.str c, Cell.str itm, Cell.num k 1, Cell.str s1, Cell.na⟩
    , ⟨Cell.na, Cell.na, Cell.na, Cell.str s2, Cell.na⟩
    , ⟨Cell.na, Cell.na, Cell.na, Cell.na, Cell.na⟩ ])]

/-- Two sheets with one data row each. -/
def wbTwoSheets : List (String × List Row) :=
  [ ("S1", [⟨Cell.str "X", Cell.na, Cell.num 1 1, Cell.str "q1", Cell.na⟩])
  , ("S2", [⟨Cell.str "Y", Cell.na, Cell.num 2 1, Cell.str "q2", Cell.na⟩]) ]

/-- A package holding one image anchored on sheet S2 at cell A2 (anchor
row index 1, the sheet's first data row). -/
def pkgS2 : Pkg :=
  { sheetIdToName := [("rId2", "S2")]
  , rIdToSheetFile := [("rId2", "sheet2.xml")]
  , sheetToDrawing := [("sheet2.xml", "drawing1.xml")]
  , drawingRIdImage := [("drawing1.xml", [("rId1", "pic.png")])]
  , namelist := ["xl/media/pic.png"]
  , drawings := [⟨"drawing1.xml", [⟨0, 1, some "rId1"⟩]⟩] }

/-- Two sheets where the second sheet's single row has a blank
classification cell. -/
def wbCrossFill : List (String × List Row) :=
  [ ("S1", [⟨Cell.str "X", Cell.na, Cell.num 1 1, Cell.str "q1", Cell.na⟩])
  , ("S2", [⟨Cell.na, Cell.na, Cell.na, Cell.str "q2", Cell.na⟩]) ]

/-- One sheet whose single row carries the fractional sequence number
seven halves. -/
def wbFrac : List (String × List Row) :=
  [("S1", [⟨Cell.str "X", Cell.na, Cell.num 7 2, Cell.str "q", Cell.na⟩])]

/-- One sheet whose single row carries the sequence-number text abc. -/
def wbStrBad : List (String × List Row) :=
  [("S1", [⟨Cell.str "X", Cell.na, Cell.str "abc", Cell.str "q", Cell.na⟩])]

/-- One sheet whose first row has a blank classification cell. -/
def wbBlankFirst : List (String × List Row) :=
  [("S1",
    [ ⟨Cell.na, Cell.na, Cell.num 1 1, Cell.str "q", Cell.na⟩
    , ⟨Cell.str "X", Cell.na, Cell.num 2 1, Cell.str "q2", Cell.na⟩ ])]

/-- Two sheets named A and A_B2, one data row each. -/
def wbCollide : List (String × List Row) :=
  [ ("A", [⟨Cell.str "X", Cell.na, Cell.num 1 1, Cell.str "q1", Cell.na⟩])
  , ("A_B2", [⟨Cell.str "Y", Cell.na, Cell.num 2 1, Cell.str "q2", Cell.na⟩]) ]

/-- A package whose two images produce colliding save names: sheet A,
cell B2, file C3_f.png and sheet A_B2, cell C3, file f.png both save as
A_B2_C3_f.png. -/
def pkgCollide : Pkg :=
  { sheetIdToName := [("rId1", "A"), ("rId2", "A_B2")]
  , rIdToSheetFile := [("rId1", "sheet1.xml"), ("rId2", "sheet2.xml")]
  , sheetToDrawing := [("sheet1.xml", "drawing1.xml"), ("sheet2.xml", "drawing2.xml")]
  , drawingRIdImage := [("drawing1.xml", [("rId1", "C3_f.png")]),
                        ("drawing2.xml", [("rId1", "f.png")])]
  , namelist := ["xl/media/C3_f.png", "xl/media/f.png"]
  , drawings := [⟨"drawing1.xml", [⟨1, 1, some "rId1"⟩]⟩,
                 ⟨"drawing2.xml", [⟨2, 2, some "rId1"⟩]⟩] }

/-- A package whose only worksheet relationship file has no drawing
relationship at all. -/
def pkgNoDrawing : Pkg :=
  { sheetIdToName := [("rId1", "Sheet1")]
  , rIdToSheetFile := [("rId1", "sheet1.xml")]
  , sheetToDrawing := []
  , drawingRIdImage := []
  , namelist := []
  , drawings := [⟨"drawing1.xml", [⟨0, 0, some "rId1"⟩]⟩] }

/-! ## Lemmas and claim theorems -/

theorem colnumAux_fuel : ∀ f1 f2 n, n < f1 → n < f2 →
    colnumAux f1 n = colnumAux f2 n := by
  intro f1
  induction f1 with
  | zero => intro f2 n h1 _; omega
  | succ f ih =>
    intro f2 n h1 h2
    cases f2 with
    | zero => omega
    | succ f2p =>
      show colnumAux (f + 1) n = colnumAux (f2p + 1) n
      by_cases h : n < 26
      · simp [colnumAux, h]
      · simp only [colnumAux, if_neg h]
        have hlt : n / 26 < n := Nat.div_lt_self (by omega) (by omega)
        rw [ih f2p (n / 26 - 1) (by omega) (by omega)]

theorem char_ofNat_letter : ∀ k, k < 26 → (Char.ofNat (k + 65)).toNat = k + 65 := by decide

theorem colnum_step (n : Nat) (h : ¬ n < 26) :
    colnum_to_excel_col n =
      colnum_to_excel_col (n / 26 - 1) ++ String.singleton (Char.ofNat (n % 26 + 65)) := by
  have h1 : colnum_to_excel_col n =
      if n < 26 then String.singleton (Char.ofNat (n % 26 + 65))
      else colnumAux n (n / 26 - 1) ++ String.singleton (Char.ofNat (n % 26 + 65)) := rfl
  rw [h1, if_neg h]
  unfold colnum_to_excel_col
  congr 1
  have hlt : n / 26 < n := Nat.div_lt_self (by omega) (by omega)
  exact colnumAux_fuel n (n / 26 - 1 + 1) (n / 26 - 1) (by omega) (by omega)

theorem colnum_base (n : Nat) (h : n < 26) :
    colnum_to_excel_col n = String.singleton (Char.ofNat (n % 26 + 65)) := by
  unfold colnum_to_excel_col
  simp [colnumAux, h]

theorem decode_encode_aux (n : Nat) :
    (colnum_to_excel_col n).data.foldl (fun a c => 26 * a + ((c.toNat : Int) - 64)) 0
      = (n : Int) + 1 := by
  induction n using Nat.strong_induction_on with
  | _ n ih =>
    by_cases h : n < 26
    · rw [colnum_base n h]
      have hmod : n % 26 = n := Nat.mod_eq_of_lt h
      simp [String.singleton, char_ofNat_letter (n % 26) (Nat.mod_lt _ (by omega))]
      omega
    · rw [colnum_step n h]
      have hdiv : n / 26 < n := Nat.div_lt_self (by omega) (by omega)
      have hge : 1 ≤ n / 26 := Nat.one_le_div_iff (by omega) |>.2 (by omega)
      have ihv := ih (n / 26 - 1) (by omega)
      rw [String.data_append]
      rw [List.foldl_append]
      rw [ihv]
      have hchar := char_ofNat_letter (n % 26) (Nat.mod_lt _ (by omega))
      simp [String.singleton, hchar]
      have hdm := Nat.div_add_mod n 26
      have : ((n / 26 - 1 : Nat) : Int) = (n / 26 : Nat) - 1 := by
        omega
      rw [this]
      push_cast
      omega

/-- Round-trip of the column codec on every nonnegative index. -/
theorem decode_encode (n : Nat) : decodeCol (colnum_to_excel_col n) = n := by
  unfold decodeCol
  rw [decode_encode_aux]
  omega

theorem colnum_injective {m n : Nat}
    (h : colnum_to_excel_col m = colnum_to_excel_col n) : m = n := by
  have hm := decode_encode m
  have hn := decode_encode n
  rw [h] at hm
  rw [hm] at hn
  exact_mod_cast hn

theorem digitChar_toNat : ∀ k, k < 10 → (Nat.digitChar k).toNat = k + 48 := by decide

theorem toDigitsCore_eq (fuel : Nat) : ∀ n acc, n < fuel →
    Nat.toDigitsCore 10 fuel n acc = decDigits n ++ acc := by
  induction fuel with
  | zero => intro n acc h; omega
  | succ f ih =>
    intro n acc h
    by_cases h0 : n / 10 = 0
    · have h10 : n < 10 := by omega
      simp only [Nat.toDigitsCore, h0, if_pos]
      rw [decDigits, dif_pos h10]
      have : n % 10 = n := by omega
      rw [this]
      rfl
    · simp only [Nat.toDigitsCore, h0, if_neg, if_false]
      have hlt : n / 10 < f := by
        have : n / 10 < n := Nat.div_lt_self (by omega) (by omega)
        omega
      rw [ih (n / 10) (Nat.digitChar (n % 10) :: acc) hlt]
      conv_rhs => rw [decDigits]
      rw [dif_neg (show ¬ n < 10 by omega)]
      simp

theorem repr_data (n : Nat) : (Nat.repr n).data = decDigits n := by
  show (Nat.toDigits 10 n).asString.data = decDigits n
  unfold Nat.toDigits
  rw [toDigitsCore_eq (n + 1) n [] (by omega)]
  simp [List.asString]

theorem decDigits_ne_nil (n : Nat) : decDigits n ≠ [] := by
  rw [decDigits]
  by_cases h : n < 10 <;> simp [h]

theorem decDigits_digits (n : Nat) :
    ∀ c ∈ decDigits n, 48 ≤ c.toNat ∧ c.toNat ≤ 57 := by
  induction n using Nat.strong_induction_on with
  | _ n ih =>
    intro c hc
    rw [decDigits] at hc
    by_cases h : n < 10
    · rw [dif_pos h] at hc
      simp at hc
      subst hc
      rw [digitChar_toNat n h]
      omega
    · rw [dif_neg h] at hc
      rcases List.mem_append.1 hc with h1 | h2
      · exact ih (n / 10) (Nat.div_lt_self (by omega) (by omega)) c h1
      · simp at h2
        subst h2
        rw [digitChar_toNat (n % 10) (by omega)]
        omega

theorem decDigits_foldl (n : Nat) : ∀ a : Nat,
    (decDigits n).foldl (fun a c => 10 * a + (c.toNat - 48)) a
      = a * 10 ^ (decDigits n).length + n := by
  induction n using Nat.strong_induction_on with
  | _ n ih =>
    intro a
    rw [decDigits]
    by_cases h : n < 10
    · rw [dif_pos h]
      simp [digitChar_toNat n h]
      ring
    · rw [dif_neg h]
      rw [List.foldl_append]
      rw [ih (n / 10) (Nat.div_lt_self (by omega) (by omega)) a]
      simp [digitChar_toNat (n % 10) (by omega)]
      have hdm := Nat.div_add_mod n 10
      ring_nf
      omega

theorem valOfDigits_decDigits (n : Nat) : valOfDigits (decDigits n) = n := by
  unfold valOfDigits
  rw [decDigits_foldl n 0]
  simp

theorem decDigits_injective {m n : Nat} (h : decDigits m = decDigits n) : m = n := by
  have hm := valOfDigits_decDigits m
  rw [h, valOfDigits_decDigits] at hm
  omega

theorem repr_injective {m n : Nat} (h : Nat.repr m = Nat.repr n) : m = n := by
  have : (Nat.repr m).data = (Nat.repr n).data := by rw [h]
  rw [repr_data, repr_data] at this
  exact decDigits_injective this

theorem colnum_letters (n : Nat) :
    ∀ c ∈ (colnum_to_excel_col n).data, 65 ≤ c.toNat ∧ c.toNat ≤ 90 := by
  induction n using Nat.strong_induction_on with
  | _ n ih =>
    intro c hc
    by_cases h : n < 26
    · rw [colnum_base n h] at hc
      simp [String.singleton] at hc
      subst hc
      rw [char_ofNat_letter (n % 26) (Nat.mod_lt _ (by omega))]
      have : n % 26 < 26 := Nat.mod_lt _ (by omega)
      omega
    · rw [colnum_step n h] at hc
      rw [String.data_append] at hc
      rcases List.mem_append.1 hc with h1 | h2
      · have hdiv : n / 26 < n := Nat.div_lt_self (by omega) (by omega)
        exact ih (n / 26 - 1) (by omega) c h1
      · simp [String.singleton] at h2
        subst h2
        rw [char_ofNat_letter (n % 26) (Nat.mod_lt _ (by omega))]
        have : n % 26 < 26 := Nat.mod_lt _ (by omega)
        omega

theorem colnum_ne_nil (n : Nat) : (colnum_to_excel_col n).data ≠ [] := by
  by_cases h : n < 26
  · rw [colnum_base n h]
    simp [String.singleton]
  · rw [colnum_step n h, String.data_append]
    simp [String.singleton]

/-- A list that is all letters followed by a nonempty digit block splits
uniquely: equal concatenations force equal parts. -/
theorem letters_digits_split {l1 l2 d1 d2 : List Char}
    (hl1 : ∀ c ∈ l1, 65 ≤ c.toNat) (hl2 : ∀ c ∈ l2, 65 ≤ c.toNat)
    (hd1 : ∀ c ∈ d1, c.toNat ≤ 57) (hd2 : ∀ c ∈ d2, c.toNat ≤ 57)
    (hn1 : d1 ≠ []) (hn2 : d2 ≠ [])
    (heq : l1 ++ d1 = l2 ++ d2) : l1 = l2 ∧ d1 = d2 := by
  induction l1 generalizing l2 with
  | nil =>
    cases l2 with
    | nil => exact ⟨rfl, heq⟩
    | cons b t =>
      exfalso
      cases d1 with
      | nil => exact hn1 rfl
      | cons a s =>
        simp at heq
        have hb : 65 ≤ b.toNat := hl2 b (by simp)
        have ha : a.toNat ≤ 57 := hd1 a (by simp)
        rw [heq.1] at ha
        omega
  | cons a t ih =>
    cases l2 with
    | nil =>
      exfalso
      cases d2 with
      | nil => exact hn2 rfl
      | cons b s =>
        simp at heq
        have ha : 65 ≤ a.toNat := hl1 a (by simp)
        have hb : b.toNat ≤ 57 := hd2 b (by simp)
        rw [heq.1] at ha
        omega
    | cons b t2 =>
      simp at heq
      obtain ⟨hab, hrest⟩ := heq
      have := ih (fun c hc => hl1 c (by simp [hc]))
        (fun c hc => hl2 c (by simp [hc])) hrest
      exact ⟨by rw [hab, this.1], this.2⟩

/-- Splitting on an underscore whose right part is underscore-free is
unambiguous. -/
theorem underscore_split {a1 a2 b1 b2 : List Char}
    (hb1 : '_' ∉ b1) (hb2 : '_' ∉ b2)
    (h : a1 ++ '_' :: b1 = a2 ++ '_' :: b2) : a1 = a2 ∧ b1 = b2 := by
  induction a1 generalizing a2 with
  | nil =>
    cases a2 with
    | nil => simpa using h
    | cons c t =>
      exfalso
      simp at h
      apply hb1
      rw [h.2]
      have : c = '_' := h.1.symm
      simp [List.mem_append]
  | cons c t ih =>
    cases a2 with
    | nil =>
      exfalso
      simp at h
      apply hb2
      rw [← h.2]
      simp [List.mem_append]
    | cons c2 t2 =>
      simp at h
      have := ih h.2
      exact ⟨by rw [h.1, this.1], this.2⟩

/-- Splitting on an underscore whose left part is underscore-free is also
unambiguous. -/
theorem underscore_split_left {a1 a2 b1 b2 : List Char}
    (ha1 : '_' ∉ a1) (ha2 : '_' ∉ a2)
    (h : a1 ++ '_' :: b1 = a2 ++ '_' :: b2) : a1 = a2 ∧ b1 = b2 := by
  induction a1 generalizing a2 with
  | nil =>
    cases a2 with
    | nil => simpa using h
    | cons c t =>
      exfalso
      simp at h
      apply ha2
      rw [← h.1]
      simp
  | cons c t ih =>
    cases a2 with
    | nil =>
      exfalso
      simp at h
      apply ha1
      rw [h.1]
      simp
    | cons c2 t2 =>
      simp at h
      have := ih (fun hm => ha1 (by simp [hm])) (fun hm => ha2 (by simp [hm])) h.2
      exact ⟨by rw [h.1, this.1], this.2⟩

theorem cellName_no_underscore (col row : Nat) : '_' ∉ (cellName col row).data := by
  unfold cellName
  rw [String.data_append]
  intro hmem
  rcases List.mem_append.1 hmem with h1 | h2
  · have := colnum_letters col _ h1
    simp at this
  · rw [repr_data] at h2
    have := decDigits_digits (row + 1) _ h2
    simp at this

theorem cellName_injective {c1 r1 c2 r2 : Nat}
    (h : cellName c1 r1 = cellName c2 r2) : c1 = c2 ∧ r1 = r2 := by
  unfold cellName at h
  have hd : (colnum_to_excel_col c1).data ++ (Nat.repr (r1 + 1)).data
      = (colnum_to_excel_col c2).data ++ (Nat.repr (r2 + 1)).data := by
    have := congrArg String.data h
    rwa [String.data_append, String.data_append] at this
  have := letters_digits_split
    (fun c hc => (colnum_letters c1 c hc).1)
    (fun c hc => (colnum_letters c2 c hc).1)
    (fun c hc => by rw [repr_data] at hc; exact (decDigits_digits (r1 + 1) c hc).2)
    (fun c hc => by rw [repr_data] at hc; exact (decDigits_digits (r2 + 1) c hc).2)
    (by rw [repr_data]; exact decDigits_ne_nil (r1 + 1))
    (by rw [repr_data]; exact decDigits_ne_nil (r2 + 1))
    hd
  constructor
  · have hm := decode_encode_aux c1
    rw [this.1] at hm
    have hn := decode_encode_aux c2
    rw [hm] at hn
    omega
  · have h2 := this.2
    rw [repr_data, repr_data] at h2
    have := decDigits_injective h2
    omega

/-- Two save names built with the same original file name agree only when
sheet name, column and row all agree. -/
theorem saveName_injective {s1 s2 f : String} {c1 r1 c2 r2 : Nat}
    (h : saveName s1 c1 r1 f = saveName s2 c2 r2 f) :
    s1 = s2 ∧ c1 = c2 ∧ r1 = r2 := by
  have hd := congrArg String.data h
  simp [saveName, String.data_append] at hd
  have hr : (s1.data ++ '_' :: (cellName c1 r1).data) ++ ('_' :: f.data)
      = (s2.data ++ '_' :: (cellName c2 r2).data) ++ ('_' :: f.data) := by
    simpa [List.append_assoc] using hd
  have hcancel := List.append_cancel_right hr
  have hsplit := underscore_split (cellName_no_underscore c1 r1)
    (cellName_no_underscore c2 r2) hcancel
  have hcell := cellName_injective (String.ext hsplit.2)
  exact ⟨String.ext hsplit.1, hcell.1, hcell.2⟩

/-- Two save names on the same sheet agree only when column, row and
original file name all agree: the first underscore after the shared sheet
prefix starts the underscore-free cell label, so labels and file names
match up separately. -/
theorem saveName_injective_sheet {s f1 f2 : String} {c1 r1 c2 r2 : Nat}
    (h : saveName s c1 r1 f1 = saveName s c2 r2 f2) :
    c1 = c2 ∧ r1 = r2 ∧ f1 = f2 := by
  have hform : s.data ++ '_' :: ((cellName c1 r1).data ++ '_' :: f1.data)
      = s.data ++ '_' :: ((cellName c2 r2).data ++ '_' :: f2.data) := by
    have hd := congrArg String.data h
    simpa [saveName, String.data_append, List.append_assoc] using hd
  have hcan := List.append_cancel_left hform
  have hcan2 : (cellName c1 r1).data ++ '_' :: f1.data
      = (cellName c2 r2).data ++ '_' :: f2.data := by
    injection hcan
  have hsplit := underscore_split_left (cellName_no_underscore c1 r1)
    (cellName_no_underscore c2 r2) hcan2
  have hcell := cellName_injective (String.ext hsplit.1)
  exact ⟨hcell.1, hcell.2, String.ext hsplit.2⟩

/-! ## Claim theorems -/

/-- C7: colnum_to_excel_col implements bijective base-26 on zero-based
column indices: it returns A for 0, Z for 25, AA for 26, ZZ for 701 and
AAA for 702. -/
theorem c7_codec_explicit_cases :
    colnum_to_excel_col 0 = "A" ∧ colnum_to_excel_col 25 = "Z" ∧
    colnum_to_excel_col 26 = "AA" ∧ colnum_to_excel_col 701 = "ZZ" ∧
    colnum_to_excel_col 702 = "AAA" :=
  ⟨rfl, rfl, rfl, rfl, rfl⟩

/-- C8: for every n in [0, 10000], decoding the letter string produced by
colnum_to_excel_col n with the bijective base-26 reference decoding yields
n back. -/
theorem c8_codec_roundtrip (n : Nat) (_h : n ≤ 10000) :
    decodeCol (colnum_to_excel_col n) = n :=
  decode_encode n

theorem c8_codec_roundtrip_witness :
    702 ≤ 10000 ∧ decodeCol (colnum_to_excel_col 702) = 702 :=
  ⟨by decide, c8_codec_roundtrip 702 (by decide)⟩

/-- C9 counterexample: two images anchored at different cells of different
sheets, with different original file names, can receive the same save
name: sheet A, cell B2, file C3_f.png and sheet A_B2, cell C3, file f.png
both save as A_B2_C3_f.png, so save names do not always differ across
different cells. -/
theorem c9_collision_counterexample :
    saveName "A" 1 1 "C3_f.png" = saveName "A_B2" 2 2 "f.png" ∧
    saveName "A" 1 1 "C3_f.png" = "A_B2_C3_f.png" ∧
    ¬ (("A" : String) = "A_B2" ∧ (1 : Nat) = 2 ∧ (1 : Nat) = 2) :=
  ⟨by decide, by decide, by decide⟩

/-- C9 amended: the save name is exactly sheet name, underscore, cell
label, underscore, original media file name; and two images anchored at
different cells receive different save names whenever their original file
names are equal, and likewise whenever they lie on the same sheet — a
collision needs both different sheets and different original file names
(see the counterexample). -/
theorem c9_save_name_amended (s1 s2 f1 f2 : String) (c1 r1 c2 r2 : Nat)
    (hne : ¬ (s1 = s2 ∧ c1 = c2 ∧ r1 = r2))
    (hcase : f1 = f2 ∨ s1 = s2) :
    saveName s1 c1 r1 f1 = s1 ++ "_" ++ cellName c1 r1 ++ "_" ++ f1 ∧
    saveName s1 c1 r1 f1 ≠ saveName s2 c2 r2 f2 := by
  refine ⟨rfl, ?_⟩
  intro h
  rcases hcase with hf | hs
  · subst hf
    exact hne (saveName_injective h)
  · subst hs
    have := saveName_injective_sheet h
    exact hne ⟨rfl, this.1, this.2.1⟩

theorem c9_save_name_amended_witness :
    (saveName "Sheet1" 0 2 "img.png" =
      "Sheet1" ++ "_" ++ cellName 0 2 ++ "_" ++ "img.png" ∧
     saveName "Sheet1" 0 2 "img.png" ≠ saveName "Sheet1" 1 2 "other.png") :=
  c9_save_name_amended "Sheet1" "Sheet1" "img.png" "other.png" 0 2 1 2
    (by decide) (Or.inr rfl)

/-- C1: the code numbers the melter input rows by concatenated position
plus two, so the numbering does not restart at each sheet as the claim
states: on a two-sheet workbook the second sheet's first data row gets
original row 3 while its on-sheet position offset by the header row is 2,
and an image anchored at that on-sheet row (registry key S2, row 2) joins
no output record. -/
theorem c1_row_numbering_divergence :
    codeOriginalRows wbTwoSheets = [2, 3] ∧
    specOriginalRows wbTwoSheets = [2, 2] ∧
    codeOriginalRows wbTwoSheets ≠ specOriginalRows wbTwoSheets ∧
    buildImageMap pkgS2 =
      Except.ok [(("S2", 2), ["json_output/image/S2_A2_pic.png"])] ∧
    (runRecords pkgS2 wbTwoSheets).map (fun rs => rs.map (fun r => r.images))
      = Except.ok [[], []] :=
  ⟨by decide, by decide, by decide, by decide, by decide⟩

/-- C2 counterexample: on a two-sheet table whose second sheet starts with
a blank classification cell, the forward fill hands the second sheet the
value X from the first sheet, so a value is carried across the sheet
boundary, contradicting the claim. -/
theorem c2_fill_crosses_sheets :
    ((dfAll wbCrossFill).map (fun r => r.sheet)) = ["S1", "S2"] ∧
    ((dfAll wbCrossFill).map (fun r => r.bunrui)) = [Cell.str "X", Cell.na] ∧
    ffillCol Cell.na ((dfAll wbCrossFill).map (fun r => r.bunrui))
      = [Cell.str "X", Cell.str "X"] ∧
    (melt_merged_rows (dfAll wbCrossFill)).map (fun gs => gs.map (fun g => g.origRows))
      = Except.ok [[2, 3]] :=
  ⟨by decide, by decide, by decide, by decide⟩

/-- C5 counterexample: a sequence-number cell holding the numeric value
seven halves is not representable as an integer, yet melt_merged_rows does
not raise: it truncates toward zero and emits the record with sequence
number 3. -/
theorem c5_fraction_truncates :
    ((preGroups (dfAll wbFrac)).map (fun g => g.no))
      = [Cell.num 7 2] ∧
    (melt_merged_rows (dfAll wbFrac)).map (fun gs => gs.map (fun g => g.no))
      = Except.ok [3] :=
  ⟨by decide, by decide⟩

/-- C6 counterexample: a sheet whose first row has a blank classification
cell is processed without any error; melt_merged_rows silently yields a
leading group for those rows, with a missing classification value. -/
theorem c6_blank_first_no_error :
    melt_merged_rows (dfAll wbBlankFirst) = Except.ok
      [ { sheet := "S1", bunrui := Cell.na, koumoku := Cell.na, no := 1,
          shitsumon := "q", kaitou := "", origRows := [2] }
      , { sheet := "S1", bunrui := Cell.str "X", koumoku := Cell.na, no := 2,
          shitsumon := "q2", kaitou := "", origRows := [3] } ] := by
  decide

/-- C10 counterexample: with sheet names A and A_B2 the two images saved
under keys (A, 2) and (A_B2, 3) collide on the single path
json_output/image/A_B2_C3_f.png, which then appears in the image lists of
two distinct output records. -/
theorem c10_path_in_two_records :
    buildImageMap pkgCollide = Except.ok
      [ (("A", 2), ["json_output/image/A_B2_C3_f.png"])
      , (("A_B2", 3), ["json_output/image/A_B2_C3_f.png"]) ] ∧
    (runRecords pkgCollide wbCollide).map (fun rs => rs.map (fun r => r.sheet))
      = Except.ok ["A", "A_B2"] ∧
    (runRecords pkgCollide wbCollide).map (fun rs => rs.map (fun r => r.images))
      = Except.ok [ ["json_output/image/A_B2_C3_f.png"]
                  , ["json_output/image/A_B2_C3_f.png"] ] := by
  refine ⟨by decide, ?_, by decide⟩
  decide

/-! ## Forward-fill semantics -/

theorem ffillCol_length : ∀ (last : Cell) (xs : List Cell),
    (ffillCol last xs).length = xs.length := by
  intro last xs
  induction xs generalizing last with
  | nil => rfl
  | cons c cs ih => simp [ffillCol, ih]

/-- The filled value at any position is the nearest non-missing original
value at or above that position, else the incoming carry. -/
theorem ffillCol_get : ∀ (xs : List Cell) (last : Cell) (i : Nat), i < xs.length →
    (ffillCol last xs)[i]? =
      some (((xs.take (i + 1)).reverse.find? (fun c => decide (c ≠ Cell.na))).getD last) := by
  intro xs
  induction xs with
  | nil => intro last i h; simp at h
  | cons c cs ih =>
    intro last i h
    have hstep : ffillCol last (c :: cs)
        = (if c = Cell.na then last else c)
          :: ffillCol (if c = Cell.na then last else c) cs := rfl
    cases i with
    | zero =>
      rw [hstep]
      by_cases hc : c = Cell.na
      · simp [hc, List.find?]
      · simp [hc, List.find?]
    | succ i =>
      have h2 : i < cs.length := by simpa using h
      rw [hstep]
      simp only [List.getElem?_cons_succ]
      rw [ih _ i h2]
      rw [List.take_succ_cons, List.reverse_cons, List.find?_append]
      cases hfind : (cs.take (i + 1)).reverse.find? (fun c => decide (c ≠ Cell.na)) with
      | some x => simp [hfind, Option.or]
      | none =>
        by_cases hc : c = Cell.na
        · simp [hfind, hc, List.find?, Option.or]
        · simp [hfind, hc, List.find?, Option.or]

/-- C2 amended: in the forward-fill step a blank cell receives the nearest
non-blank value above it in the whole concatenated table, with no regard
to sheet boundaries (the value can come from a previous sheet, as the
counterexample shows). -/
theorem c2_fill_amended (xs : List Cell) (i : Nat) (h : i < xs.length) :
    (ffillCol Cell.na xs)[i]? =
      some (((xs.take (i + 1)).reverse.find? (fun c => decide (c ≠ Cell.na))).getD Cell.na) :=
  ffillCol_get xs Cell.na i h

theorem c2_fill_amended_witness :
    (ffillCol Cell.na [Cell.str "X", Cell.na])[1]? =
      some (((([Cell.str "X", Cell.na] : List Cell).take 2).reverse.find?
        (fun c => decide (c ≠ Cell.na))).getD Cell.na) :=
  c2_fill_amended [Cell.str "X", Cell.na] 1 (by decide)

/-! ## Group id semantics -/

theorem count_true_map {α : Type} (p : α → Bool) :
    ∀ l : List α, (l.map p).count true = l.countP p := by
  intro l
  induction l with
  | nil => rfl
  | cons a t ih => by_cases hp : p a <;> simp [List.count_cons, List.countP_cons, hp, ih]

theorem cumsumB_eq : ∀ (bs : List Bool) (acc : Nat),
    cumsumB acc bs = (List.range bs.length).map
      (fun i => acc + (bs.take (i + 1)).count true) := by
  intro bs
  induction bs with
  | nil => intro acc; rfl
  | cons b t ih =>
    intro acc
    have hstep : cumsumB acc (b :: t)
        = (if b then acc + 1 else acc) :: cumsumB (if b then acc + 1 else acc) t := rfl
    rw [hstep, ih, List.length_cons, List.range_succ_eq_map, List.map_cons]
    congr 1
    · cases b <;> simp [List.count_cons]
    · rw [List.map_map]
      apply List.map_congr_left
      intro i hi
      simp only [Function.comp, List.take_succ_cons, List.count_cons]
      cases b <;> simp <;> omega

/-- The group id of every row is the count, up to and including that row,
of rows whose pre-fill classification cell is non-missing. -/
theorem grpList_eq (rows : List SRow) :
    grpList rows = (List.range rows.length).map
      (fun i => (rows.take (i + 1)).countP (fun r => decide (r.bunrui ≠ Cell.na))) := by
  unfold grpList
  rw [cumsumB_eq]
  simp only [List.length_map]
  apply List.map_congr_left
  intro i hi
  rw [← List.map_take, count_true_map]
  simp

theorem getD_range_map {α : Type} (f : Nat → α) (n i : Nat) (d : α) (h : i < n) :
    ((List.range n).map f).getD i d = f i := by
  rw [List.getD_eq_getElem?_getD]
  simp [List.getElem?_map, List.getElem?_range, h]

/-! ## Broken resolution links -/

/-- C4: a broken link in the resolution chain produces no images and no
exception. The first part covers a sheet with no worksheet relationship
as well as a worksheet relationship file with no drawing relationship (in
both cases no worksheet relationship pair maps to the drawing, so the
drawing resolves to no sheet and contributes nothing, with the ok result
witnessing that nothing is raised); the second covers a drawing whose
relationship table has no entry for an anchor's embed id; the third a
referenced media part absent from the archive. The anchor-level lookups
are total functions into Option, so no exception exists there at all. -/
theorem c4_broken_links (p : Pkg) (d : Drawing) :
    ((∀ pr ∈ p.rIdToSheetFile, p.sheetToDrawing.lookup pr.2 ≠ some d.name) →
      drawingImages p d = Except.ok []) ∧
    (∀ (sname : String) (a : Anchor), a ∈ d.anchors →
      (∀ rId, a.embed = some rId → (rIdImgOf p d.name).lookup rId = none) →
      anchorSave sname (rIdImgOf p d.name) p.namelist a = none) ∧
    (∀ (sname : String) (a : Anchor) (rId file : String), a.embed = some rId →
      (rIdImgOf p d.name).lookup rId = some file →
      ("xl/media/" ++ file) ∉ p.namelist →
      anchorSave sname (rIdImgOf p d.name) p.namelist a = none) := by
  refine ⟨?_, ?_, ?_⟩
  · intro h
    have hfind : p.rIdToSheetFile.find?
        (fun pr => p.sheetToDrawing.lookup pr.2 == some d.name) = none := by
      rw [List.find?_eq_none]
      intro pr hpr
      simpa using h pr hpr
    unfold drawingImages sheetNameFor
    rw [hfind]
    rfl
  · intro sname a ha hemb
    cases hae : a.embed with
    | none => simp [anchorSave, hae]
    | some rId => simp [anchorSave, hae, hemb rId hae]
  · intro sname a rId file hae hlook hmem
    simp only [anchorSave, hae, hlook]
    by_cases hf : file = ""
    · simp [hf]
    · simp [hf, hmem]

theorem c4_broken_links_witness :
    drawingImages pkgNoDrawing ⟨"drawing1.xml", [⟨0, 0, some "rId1"⟩]⟩ = Except.ok [] :=
  (c4_broken_links pkgNoDrawing ⟨"drawing1.xml", [⟨0, 0, some "rId1"⟩]⟩).1 (by decide)

/-! ## Error propagation of the sequence-number coercion -/

theorem exBindErr {ε α β : Type} (e : ε) (f : α → Except ε β) :
    (Except.error e >>= f : Except ε β) = Except.error e := rfl

theorem exBindOk {ε α β : Type} (a : α) (f : α → Except ε β) :
    (Except.ok a >>= f : Except ε β) = f a := rfl

theorem exMapErr {ε α β : Type} (e : ε) (f : α → β) :
    (f <$> (Except.error e : Except ε α)) = (Except.error e : Except ε β) := rfl

theorem exMapOk {ε α β : Type} (a : α) (f : α → β) :
    (f <$> (Except.ok a : Except ε α)) = (Except.ok (f a) : Except ε β) := rfl

theorem exPure {ε α : Type} (a : α) : (pure a : Except ε α) = Except.ok a := rfl

theorem mapExcept_error_of_mem {α β ε : Type} (f : α → Except ε β) :
    ∀ l : List α, (∃ a ∈ l, ∃ e, f a = Except.error e) →
      ∃ e, mapExcept f l = Except.error e := by
  intro l
  induction l with
  | nil => rintro ⟨a, ha, _⟩; simp at ha
  | cons a t ih =>
    rintro ⟨x, hx, e, hfx⟩
    rcases List.mem_cons.1 hx with rfl | hxt
    · exact ⟨e, by simp [mapExcept, hfx, exBindErr]⟩
    · cases hfa : f a with
      | error e2 => exact ⟨e2, by simp [mapExcept, hfa, exBindErr]⟩
      | ok b =>
        obtain ⟨e2, he2⟩ := ih ⟨x, hxt, e, hfx⟩
        exact ⟨e2, by simp [mapExcept, hfa, he2, exBindOk, exBindErr]⟩

theorem mapExcept_ok_forall₂ {α β ε : Type} (f : α → Except ε β) :
    ∀ (l : List α) (l2 : List β), mapExcept f l = Except.ok l2 →
      List.Forall₂ (fun a b => f a = Except.ok b) l l2 := by
  intro l
  induction l with
  | nil =>
    intro l2 h
    simp only [mapExcept] at h
    cases h
    constructor
  | cons a t ih =>
    intro l2 h
    cases hfa : f a with
    | error e => simp [mapExcept, hfa, exBindErr] at h
    | ok b =>
      cases hmt : mapExcept f t with
      | error e => simp [mapExcept, hfa, hmt, exBindOk, exBindErr, exMapErr] at h
      | ok bs =>
        simp only [mapExcept, hfa, hmt, exBindOk, exMapOk, exPure] at h
        have : b :: bs = l2 := by
          simpa using h
        subst this
        exact List.Forall₂.cons hfa (ih bs hmt)

theorem coerceGroup_fields {pg : PreGroup} {g : Group}
    (h : coerceGroup pg = Except.ok g) :
    g.sheet = pg.sheet ∧ g.bunrui = pg.bunrui ∧ g.origRows = pg.origRows := by
  cases ht : toIntCell pg.no with
  | error e => simp [coerceGroup, ht, exBindErr] at h
  | ok n =>
    simp only [coerceGroup, ht, exBindOk, exPure] at h
    cases h
    exact ⟨rfl, rfl, rfl⟩

/-- C5 amended: a group whose filled sequence value is genuinely missing
or is text not parseable as an integer makes melt_merged_rows raise, and
the run aborts with no record emitted; however a fractional numeric value
does not raise — it is truncated toward zero and the record is emitted
(see the counterexample). -/
theorem c5_seqnum_amended (wb : List (String × List Row))
    (h : ∃ g ∈ preGroups (dfAll wb), (toIntCell g.no).isOk = false) :
    (∃ e, melt_merged_rows (dfAll wb) = Except.error e) ∧
    (∀ (p : Pkg) (m : ImageMap), buildImageMap p = Except.ok m →
      ∃ e, runRecords p wb = Except.error e) := by
  have herr : ∃ g ∈ preGroups (dfAll wb), ∃ e, coerceGroup g = Except.error e := by
    obtain ⟨g, hg, hok⟩ := h
    refine ⟨g, hg, ?_⟩
    cases ht : toIntCell g.no with
    | error e => exact ⟨e, by simp [coerceGroup, ht, Except.bind]⟩
    | ok n => rw [ht] at hok; simp [Except.isOk, Except.toBool] at hok
  have hmelt := mapExcept_error_of_mem coerceGroup (preGroups (dfAll wb)) herr
  refine ⟨hmelt, ?_⟩
  intro p m hp
  obtain ⟨e, he⟩ := hmelt
  refine ⟨e, ?_⟩
  simp [runRecords, melt_merged_rows, hp, he, exBindOk, exBindErr]

/-! ## The leading blank-classification group -/

theorem firstCell_eq_na {l : List Cell} (h : ∀ c ∈ l, c = Cell.na) :
    firstCell l = Cell.na := by
  unfold firstCell
  rw [List.find?_eq_none.2]
  · rfl
  · intro x hx
    simp [h x hx]

theorem meltInput_mem {rows : List SRow} {t : Tagged} (h : t ∈ meltInput rows) :
    ∃ i, i < rows.length ∧
      t = ⟨(ffill3 rows).getD i dSRow, (grpList rows).getD i 0, i + 2⟩ := by
  simp only [meltInput] at h
  rcases List.mem_map.1 h with ⟨i, hi, ht⟩
  exact ⟨i, List.mem_range.1 hi, ht.symm⟩

theorem grpList_getD {rows : List SRow} {i : Nat} (h : i < rows.length) :
    (grpList rows).getD i 0
      = (rows.take (i + 1)).countP (fun r => decide (r.bunrui ≠ Cell.na)) := by
  rw [grpList_eq]
  exact getD_range_map _ _ _ _ h

theorem ffill3_getD_bunrui (rows : List SRow) (i : Nat) (h : i < rows.length) :
    ((ffill3 rows).getD i dSRow).bunrui
      = (((rows.map (fun r => r.bunrui)).take (i + 1)).reverse.find?
          (fun c => decide (c ≠ Cell.na))).getD Cell.na := by
  unfold ffill3
  rw [getD_range_map _ _ _ _ h]
  show (ffillCol Cell.na (rows.map (fun r => r.bunrui))).getD i Cell.na = _
  have hlen : i < (rows.map (fun r => r.bunrui)).length := by simpa using h
  rw [List.getD_eq_getElem?_getD, ffillCol_get _ _ _ hlen]
  rfl

/-- C6 amended: a table whose first row has a blank classification cell is
not an error: whenever melt_merged_rows succeeds, the leading rows form a
silently produced first group whose classification value is missing (no
GroupBoundaryError exists in the code). -/
theorem c6_blank_first_amended (rows : List SRow) (r0 : SRow) (rtail : List SRow)
    (hrows : rows = r0 :: rtail) (hb : r0.bunrui = Cell.na)
    (gs : List Group) (hm : melt_merged_rows rows = Except.ok gs) :
    ∃ g gtail, gs = g :: gtail ∧ g.bunrui = Cell.na := by
  subst hrows
  have hgrp0 : grpList (r0 :: rtail)
      = 0 :: cumsumB 0 (rtail.map (fun r => decide (r.bunrui ≠ Cell.na))) := by
    simp [grpList, cumsumB, hb]
  have hkeys : firstKeys (grpList (r0 :: rtail))
      = 0 :: (firstKeys (cumsumB 0 (rtail.map (fun r => decide (r.bunrui ≠ Cell.na))))).filter
          (fun x => decide (x ≠ 0)) := by
    rw [hgrp0]
    rfl
  have hpre : preGroups (r0 :: rtail)
      = aggGroup ((meltInput (r0 :: rtail)).filter (fun t => decide (t.grp = 0)))
        :: ((firstKeys (cumsumB 0 (rtail.map (fun r => decide (r.bunrui ≠ Cell.na))))).filter
              (fun x => decide (x ≠ 0))).map
            (fun k => aggGroup ((meltInput (r0 :: rtail)).filter (fun t => decide (t.grp = k)))) := by
    unfold preGroups
    rw [hkeys]
    rfl
  have hbun : (aggGroup ((meltInput (r0 :: rtail)).filter
      (fun t => decide (t.grp = 0)))).bunrui = Cell.na := by
    apply firstCell_eq_na
    intro c hc
    rcases List.mem_map.1 hc with ⟨t, ht, hct⟩
    have hmem := List.mem_filter.1 ht
    have htg : t.grp = 0 := by simpa using hmem.2
    rcases meltInput_mem hmem.1 with ⟨i, hi, hti⟩
    have hcount : ((r0 :: rtail).take (i + 1)).countP
        (fun r => decide (r.bunrui ≠ Cell.na)) = 0 := by
      rw [← grpList_getD hi, ← show t.grp = (grpList (r0 :: rtail)).getD i 0 by rw [hti]]
      exact htg
    have hall := List.countP_eq_zero.1 hcount
    have hfna : ((((r0 :: rtail).map (fun r => r.bunrui)).take (i + 1)).reverse.find?
        (fun c => decide (c ≠ Cell.na))) = none := by
      rw [List.find?_eq_none]
      intro x hx
      rw [← List.map_take] at hx
      rcases List.mem_map.1 (List.mem_reverse.1 hx) with ⟨r, hr, hxr⟩
      have := hall r hr
      simp at this
      simp [← hxr, this]
    rw [← hct, hti]
    rw [show (Tagged.mk ((ffill3 (r0 :: rtail)).getD i dSRow)
        ((grpList (r0 :: rtail)).getD i 0) (i + 2)).row
        = (ffill3 (r0 :: rtail)).getD i dSRow from rfl]
    rw [ffill3_getD_bunrui _ i hi, hfna]
    rfl
  have hf2 := mapExcept_ok_forall₂ coerceGroup (preGroups (r0 :: rtail)) gs hm
  rw [hpre] at hf2
  cases hf2 with
  | cons hco hrest =>
    refine ⟨_, _, rfl, ?_⟩
    rw [(coerceGroup_fields hco).2.1, hbun]

theorem c6_blank_first_amended_witness :
    ∃ g gtail,
      ([ { sheet := "S1", bunrui := Cell.na, koumoku := Cell.na, no := 1,
           shitsumon := "q", kaitou := "", origRows := [2] }
       , { sheet := "S1", bunrui := Cell.str "X", koumoku := Cell.na, no := 2,
           shitsumon := "q2", kaitou := "", origRows := [3] } ] : List Group)
        = g :: gtail ∧ g.bunrui = Cell.na :=
  c6_blank_first_amended (dfAll wbBlankFirst)
    ⟨Cell.na, Cell.na, Cell.num 1 1, Cell.str "q", Cell.na, "S1"⟩
    [⟨Cell.str "X", Cell.na, Cell.num 2 1, Cell.str "q2", Cell.na, "S1"⟩]
    (by decide) (by decide) _ (by decide)

theorem ratTrunc_int (k : Int) : ratTrunc k 1 = k := by
  by_cases hk : k < 0 <;> simp [ratTrunc, hk, Nat.div_one] <;> omega

/-- C3: the group id of every row is the running count, up to and
including that row, of rows whose pre-fill classification cell is
non-blank; and on three consecutive rows where only the first carries a
classification value and the question column has text on rows one and two
only, the melter yields exactly one merge group whose question is row one
text, a newline, then row two text, and whose original rows are the three
consecutive row numbers starting at the first data row. -/
theorem c3_running_count_and_melt :
    (∀ rows : List SRow, grpList rows = (List.range rows.length).map
      (fun i => (rows.take (i + 1)).countP (fun r => decide (r.bunrui ≠ Cell.na)))) ∧
    (∀ (shNm c itm s1 s2 : String) (k : Int),
      melt_merged_rows (dfAll (threeRows shNm c itm s1 s2 k)) = Except.ok
        [ { sheet := shNm, bunrui := Cell.str c, koumoku := Cell.str itm, no := k,
            shitsumon := s1 ++ "\n" ++ s2, kaitou := "", origRows := [2, 3, 4] } ]) := by
  constructor
  · exact grpList_eq
  · intro shNm c itm s1 s2 k
    have h1 : melt_merged_rows (dfAll (threeRows shNm c itm s1 s2 k)) = Except.ok
        [ { sheet := shNm, bunrui := Cell.str c, koumoku := Cell.str itm,
            no := ratTrunc k 1, shitsumon := s1 ++ "\n" ++ s2, kaitou := "",
            origRows := [2, 3, 4] } ] := rfl
    rw [h1, ratTrunc_int]

/-! ## Disjointness of the group original rows -/

theorem firstKeys_nodup : ∀ l : List Nat, (firstKeys l).Nodup := by
  intro l
  induction l with
  | nil => simp [firstKeys]
  | cons k ks ih =>
    rw [firstKeys, List.nodup_cons]
    refine ⟨?_, ih.filter _⟩
    intro hmem
    have := (List.mem_filter.1 hmem).2
    simp at this

/-- Membership in a group's original rows pins down the row's position in
the concatenated table and hence the group key it belongs to. -/
theorem origRows_key {rows : List SRow} {k r : Nat}
    (h : r ∈ (aggGroup ((meltInput rows).filter
      (fun t => decide (t.grp = k)))).origRows) :
    2 ≤ r ∧ r - 2 < rows.length ∧ (grpList rows).getD (r - 2) 0 = k := by
  have hagg : (aggGroup ((meltInput rows).filter (fun t => decide (t.grp = k)))).origRows
      = ((meltInput rows).filter (fun t => decide (t.grp = k))).map (fun t => t.orig) := rfl
  rw [hagg] at h
  rcases List.mem_map.1 h with ⟨t, ht, htr⟩
  have hmem := List.mem_filter.1 ht
  have htg : t.grp = k := by simpa using hmem.2
  rcases meltInput_mem hmem.1 with ⟨i, hi, hti⟩
  have hr : r = i + 2 := by rw [← htr, hti]
  have hi2 : r - 2 = i := by omega
  refine ⟨by omega, by omega, ?_⟩
  rw [hi2, ← htg, hti]

theorem countP_le_one {α : Type} (p : α → Bool) :
    ∀ l : List α, l.Nodup → (∀ a ∈ l, ∀ b ∈ l, p a → p b → a = b) →
      l.countP p ≤ 1 := by
  intro l
  induction l with
  | nil => intro _ _; simp
  | cons a t ih =>
    intro hnd huniq
    rw [List.countP_cons]
    by_cases hpa : p a
    · have ht0 : t.countP p = 0 := by
        rw [List.countP_eq_zero]
        intro x hx hpx
        have hxa : x = a := huniq x (by simp [hx]) a (by simp) hpx hpa
        rw [List.nodup_cons] at hnd
        exact hnd.1 (hxa ▸ hx)
      simp [hpa, ht0]
    · have := ih (List.nodup_cons.1 hnd).2
        (fun x hx y hy => huniq x (by simp [hx]) y (by simp [hy]))
      simp [hpa]
      omega

theorem forall₂_mem_right {α β : Type} {P : α → β → Prop} {l1 : List α} {l2 : List β}
    (hf : List.Forall₂ P l1 l2) {b : β} (hb : b ∈ l2) : ∃ a ∈ l1, P a b := by
  induction hf with
  | nil => simp at hb
  | cons h t ih =>
    cases hb with
    | head => exact ⟨_, by simp, h⟩
    | tail _ hb2 =>
      obtain ⟨a, ha, hPa⟩ := ih hb2
      exact ⟨a, by simp [ha], hPa⟩

theorem pairwise_transfer {α β : Type} {P : α → β → Prop} {R : α → α → Prop}
    {S : β → β → Prop} {l1 : List α} {l2 : List β} (hf : List.Forall₂ P l1 l2)
    (himp : ∀ a b a2 b2, P a a2 → P b b2 → R a b → S a2 b2) :
    List.Pairwise R l1 → List.Pairwise S l2 := by
  induction hf with
  | nil => intro _; constructor
  | cons hP hF ih =>
    intro hp
    rcases List.pairwise_cons.1 hp with ⟨hhead, htail⟩
    constructor
    · intro b2 hb2
      obtain ⟨b, hb, hPb⟩ := forall₂_mem_right hF hb2
      exact himp _ _ _ _ hP hPb (hhead b hb)
    · exact ih htail

theorem countP_transfer {α β : Type} {P : α → β → Prop} {p : α → Bool} {q : β → Bool}
    {l1 : List α} {l2 : List β} (hf : List.Forall₂ P l1 l2)
    (h : ∀ a b, P a b → p a = q b) : l1.countP p = l2.countP q := by
  induction hf with
  | nil => rfl
  | cons hP hF ih => rw [List.countP_cons, List.countP_cons, ih, h _ _ hP]

theorem preGroups_pairwise (rows : List SRow) :
    List.Pairwise (fun g1 g2 => ∀ r ∈ g1.origRows, r ∉ g2.origRows)
      (preGroups rows) := by
  unfold preGroups
  apply List.pairwise_map.2
  have hnd : List.Pairwise (fun a b => a ≠ b) (firstKeys (grpList rows)) :=
    firstKeys_nodup (grpList rows)
  refine List.Pairwise.imp ?_ hnd
  intro k1 k2 hne r hr1 hr2
  exact hne (((origRows_key hr1).2.2).symm.trans (origRows_key hr2).2.2)

theorem preGroups_countP (rows : List SRow) (s : String) (r : Nat) :
    (preGroups rows).countP (fun g => decide (g.sheet = s ∧ r ∈ g.origRows)) ≤ 1 := by
  unfold preGroups
  rw [List.countP_map]
  apply countP_le_one
  · exact firstKeys_nodup _
  · intro k1 hk1 k2 hk2 hp1 hp2
    simp only [Function.comp, decide_eq_true_eq] at hp1 hp2
    exact ((origRows_key hp1.2).2.2).symm.trans (origRows_key hp2.2).2.2

/-- C10 amended: the original row lists of distinct merge groups are
pairwise disjoint, so the registry entry of any one (sheet, row) key joins
into at most one output record; but a single saved path can be registered
under two different keys when save names collide across cells, and then
that path appears in two records (see the counterexample). -/
theorem c10_disjoint_amended (rows : List SRow) (gs : List Group)
    (hm : melt_merged_rows rows = Except.ok gs) :
    List.Pairwise (fun g1 g2 => ∀ r ∈ g1.origRows, r ∉ g2.origRows) gs ∧
    ∀ (s : String) (r : Nat),
      gs.countP (fun g => decide (g.sheet = s ∧ r ∈ g.origRows)) ≤ 1 := by
  have hf := mapExcept_ok_forall₂ coerceGroup (preGroups rows) gs hm
  constructor
  · refine pairwise_transfer hf ?_ (preGroups_pairwise rows)
    intro a b a2 b2 hPa hPb hR r hr1 hr2
    have ha := coerceGroup_fields hPa
    have hb := coerceGroup_fields hPb
    exact hR r (ha.2.2 ▸ hr1) (hb.2.2 ▸ hr2)
  · intro s r
    rw [← countP_transfer hf
      (p := fun g => decide (g.sheet = s ∧ r ∈ g.origRows))
      (q := fun g => decide (g.sheet = s ∧ r ∈ g.origRows)) ?_]
    · exact preGroups_countP rows s r
    · intro a b hP
      have h := coerceGroup_fields hP
      simp [h.1, h.2.2]

theorem c10_disjoint_amended_witness :
    List.Pairwise (fun g1 g2 => ∀ r ∈ g1.origRows, r ∉ g2.origRows)
      ([ { sheet := "S1", bunrui := Cell.str "X", koumoku := Cell.na, no := 1,
           shitsumon := "q1", kaitou := "", origRows := [2] }
       , { sheet := "S2", bunrui := Cell.str "Y", koumoku := Cell.na, no := 2,
           shitsumon := "q2", kaitou := "", origRows := [3] } ] : List Group) ∧
    ∀ (s : String) (r : Nat),
      ([ { sheet := "S1", bunrui := Cell.str "X", koumoku := Cell.na, no := 1,
           shitsumon := "q1", kaitou := "", origRows := [2] }
       , { sheet := "S2", bunrui := Cell.str "Y", koumoku := Cell.na, no := 2,
           shitsumon := "q2", kaitou := "", origRows := [3] } ] : List Group).countP
        (fun g => decide (g.sheet = s ∧ r ∈ g.origRows)) ≤ 1 :=
  c10_disjoint_amended (dfAll wbTwoSheets) _ (by decide)

theorem c5_seqnum_amended_witness :
    (∃ g ∈ preGroups (dfAll wbStrBad), (toIntCell g.no).isOk = false) ∧
    ((∃ e, melt_merged_rows (dfAll wbStrBad) = Except.error e) ∧
     (∀ (p : Pkg) (m : ImageMap), buildImageMap p = Except.ok m →
       ∃ e, runRecords p wbStrBad = Except.error e)) :=
  ⟨by decide, c5_seqnum_amended wbStrBad (by decide)⟩

end ExcelRag
